import Mathlib

/-!
Verification development for mokutil (src/mokutil.c): a shallow embedding of
the MOK signature-list codec, duplicate-detection, password-authenticated
request protocol, and the request builder, together with theorems settling
the specification claims.

Modelling conventions:
* machine memory is a total function `Nat → Nat` giving the byte at each
  absolute offset (bytes beyond a buffer's length model the unspecified heap
  contents that the C code can reach through out-of-bounds reads);
* 32-bit fields are read little-endian, and `uint32_t` arithmetic is taken
  modulo 2^32;
* the decode loop of `build_mok_list` is given explicit fuel, since the C
  loop does not terminate on a record whose `SignatureListSize` is 0
  (`none` = the C loop still running after that much fuel);
* alongside the decoded entries the loop accumulates the list of absolute
  byte offsets the C code dereferences, so that claims about out-of-bounds
  reads can be stated.
-/

/-- One element of the `MokListNode` array produced by `build_mok_list`:
`mok_size = SignatureSize - sizeof(efi_guid_t)` (uint32 arithmetic) and
`mok` the bytes the stored `SignatureData` pointer designates. -/
structure MokEntry where
  mok_size : Nat
  mok : List Nat
deriving DecidableEq, Repr

/-- Little-endian 32-bit read at absolute offset `off` (fields of
`EFI_SIGNATURE_LIST` are packed little-endian `uint32_t`). -/
def readU32 (mem : Nat → Nat) (off : Nat) : Nat :=
  mem off + 256 * mem (off + 1) + 65536 * mem (off + 2) +
    16777216 * mem (off + 3)

/-- The four byte offsets dereferenced by a 32-bit read at `off`. -/
def u32Reads (off : Nat) : List Nat :=
  [off, off + 1, off + 2, off + 3]

/-- The byte offsets dereferenced by a 16-byte GUID compare at `off`. -/
def guidReads (off : Nat) : List Nat :=
  (List.range 16).map fun i => off + i

/-- Little-endian encoding of a `uint32_t` value. -/
def writeU32 (n : Nat) : List Nat :=
  [n % 256, n / 256 % 256, n / 65536 % 256, n / 16777216 % 256]

/-- The 16 bytes of an `efi_guid_t` stored at absolute offset `off`
(`efi_guidcmp` compares all 16 bytes). -/
def readGuid (mem : Nat → Nat) (off : Nat) : List Nat :=
  (List.range 16).map fun i => mem (off + i)

/-- `EfiCertX509Guid` (a5c059a1-94e4-4aa7-87b5-ab155c2bf072) as stored bytes.
Modelled from the spec: the "X.509 certificate" signature-type GUID is
declared in signature.h, which is not part of the provided sources; the
byte values are the standard UEFI ones. -/
def efiCertX509Guid : List Nat :=
  [0xa1, 0x59, 0xc0, 0xa5, 0xe4, 0x94, 0xa7, 0x4a,
   0x87, 0xb5, 0xab, 0x15, 0x5c, 0x2b, 0xf0, 0x72]

/-- `EfiHashSha256Guid` (c1c41626-504c-4092-aca9-41f936934328) as stored
bytes. Modelled from the spec: the "SHA-256 hash" signature-type GUID is
declared in the missing signature.h; byte values are the standard UEFI
ones. -/
def efiHashSha256Guid : List Nat :=
  [0x26, 0x16, 0xc4, 0xc1, 0x4c, 0x50, 0x92, 0x40,
   0xac, 0xa9, 0x41, 0xf9, 0x36, 0x93, 0x43, 0x28]

/-- `SHIM_LOCK_GUID` (605dab50-e046-4300-abb6-3dd810dd8b23), defined in
src/mokutil.c, as stored bytes. -/
def shimLockGuid : List Nat :=
  [0x50, 0xab, 0x5d, 0x60, 0x46, 0xe0, 0x00, 0x43,
   0xab, 0xb6, 0x3d, 0xd8, 0x10, 0xdd, 0x8b, 0x23]

/-- `EFI_GLOBAL_VARIABLE` (8be4df61-93ca-11d2-aa0d-00e098032b8c) as stored
bytes. Modelled from the spec: declared in the missing efi.h; byte values
are the standard UEFI ones. -/
def efiGlobalVariableGuid : List Nat :=
  [0x61, 0xdf, 0xe4, 0x8b, 0xca, 0x93, 0xd2, 0x11,
   0xaa, 0x0d, 0x00, 0xe0, 0x98, 0x03, 0x2b, 0x8c]

/-- `EFI_IMAGE_SECURITY_DATABASE_GUID` (d719b2cb-3d3a-4596-a3bc-dad00e67656f)
as stored bytes. Modelled from the spec: declared in the missing efi.h;
byte values are the standard UEFI ones. -/
def efiImageSecurityDatabaseGuid : List Nat :=
  [0xcb, 0xb2, 0x19, 0xd7, 0x3a, 0x3d, 0x96, 0x45,
   0xa3, 0xbc, 0xda, 0xd0, 0x0e, 0x67, 0x65, 0x6f]

/-- The body of one iteration of the `build_mok_list` while-loop after the
size guard has passed, for the record starting at absolute offset `c`:
either the record is skipped (unrecognized type GUID, or a SHA-256 record
whose `SignatureSize` is not 48) or it contributes one `MokListNode`.
`Cert` is `CertList + sizeof(EFI_SIGNATURE_LIST) + SignatureHeaderSize`,
i.e. offset `c + 28 + SignatureHeaderSize`, and `SignatureData` lies 16
bytes (the owner GUID) further. The second component lists the byte
offsets this iteration dereferences (the type GUID and the header fields
it inspects; the payload itself is only pointed at, not read, by
`build_mok_list`). -/
def sigRecordEntry (mem : Nat → Nat) (c : Nat) : Option MokEntry × List Nat :=
  let t := readGuid mem c
  if t ≠ efiCertX509Guid ∧ t ≠ efiHashSha256Guid then
    (none, guidReads c)
  else if t = efiHashSha256Guid ∧ readU32 mem (c + 24) ≠ 48 then
    (none, guidReads c ++ u32Reads (c + 24))
  else
    let mokSize := (readU32 mem (c + 24) + 4294967296 - 16) % 4294967296
    (some { mok_size := mokSize,
            mok := (List.range mokSize).map fun i =>
              mem (c + 28 + readU32 mem (c + 20) + 16 + i) },
     guidReads c ++ u32Reads (c + 20) ++ u32Reads (c + 24))

/-- The while-loop of `build_mok_list`: cursor `c` (absolute offset of
`CertList`), remaining size `d` (`dbsize`), accumulated entries `acc` and
accumulated read offsets `racc`. The loop guard
`(dbsize > 0) && (dbsize >= CertList->SignatureListSize)` first tests
`d = 0` (no memory access), then reads the record's `SignatureListSize`
field; every arm then advances cursor and remaining size by that declared
size. `fuel` bounds the number of iterations; `none` means the C loop has
not finished within that many iterations (with `SignatureListSize = 0` it
never does). -/
def build_mok_loop (mem : Nat → Nat) :
    Nat → Nat → Nat → List MokEntry → List Nat →
    Option (List MokEntry × List Nat)
  | 0, _, _, _, _ => none
  | fuel + 1, c, d, acc, racc =>
    if d = 0 then some (acc, racc)
    else
      let lsz := readU32 mem (c + 16)
      if d < lsz then some (acc, racc ++ u32Reads (c + 16))
      else
        match sigRecordEntry mem c with
        | (none, rs) =>
            build_mok_loop mem fuel (c + lsz) (d - lsz) acc
              (racc ++ u32Reads (c + 16) ++ rs)
        | (some e, rs) =>
            build_mok_loop mem fuel (c + lsz) (d - lsz) (acc ++ [e])
              (racc ++ u32Reads (c + 16) ++ rs)

/-- The memory image of a concrete buffer placed at offset 0 (bytes past
the end are the heap's unspecified contents, here defaulted). -/
def memOf (buf : List Nat) : Nat → Nat := fun i => buf.getD i 0

/-- `build_mok_list (data, data_size)` on a concrete buffer: run the walk
from offset 0 with remaining size `data_size = buf.length`. Since every
productive iteration decreases the remaining size by at least 1 (or the
loop never terminates at all), `buf.length + 1` fuel is exact: `none` here
means the C loop diverges. -/
def build_mok_list (buf : List Nat) : Option (List MokEntry × List Nat) :=
  build_mok_loop (memOf buf) (buf.length + 1) 0 buf.length [] []

/-- Just the decoded entries of `build_mok_list`. -/
def decodeEntries (buf : List Nat) : Option (List MokEntry) :=
  (build_mok_list buf).map Prod.fst

/-- The 44-byte prefix (`EFI_SIGNATURE_LIST` header plus owner GUID) that
`issue_mok_request` writes for a key blob of `size` bytes:
`SignatureType = EfiCertX509Guid`,
`SignatureListSize = size + sizeof(EFI_SIGNATURE_LIST) +
sizeof(EFI_SIGNATURE_DATA) - 1 = size + 44`, `SignatureHeaderSize = 0`,
`SignatureSize = size + sizeof(efi_guid_t) = size + 16`, and
`SignatureOwner = SHIM_LOCK_GUID`. -/
def sigListHeader (size : Nat) : List Nat :=
  efiCertX509Guid ++ writeU32 ((size + 44) % 4294967296) ++ writeU32 0 ++
    writeU32 ((size + 16) % 4294967296) ++ shimLockGuid

/-- One encoded signature-list record as `issue_mok_request` lays it out:
header and owner GUID followed by the raw key blob. -/
def encodeRecord (b : List Nat) : List Nat :=
  sigListHeader b.length ++ b

/-- The buffer `issue_mok_request` produces for a batch of (all-eligible)
key blobs: one X.509 record per blob, in input order. -/
def encodeList (blobs : List (List Nat)) : List Nat :=
  (blobs.map encodeRecord).flatten

/-- A buffer region `[c, c + d)` is a whole number of well-delimited
signature-list records: either it is empty, or the record at `c` declares a
`SignatureListSize` that covers at least the full 28-byte
`EFI_SIGNATURE_LIST` header and at most the remaining length, and the rest
of the region is again well-delimited. This is the proviso under which the
decode walk of `build_mok_list` stays inside the buffer. -/
def wfRegion (mem : Nat → Nat) (c d : Nat) : Prop :=
  if d = 0 then True
  else if _h : 28 ≤ readU32 mem (c + 16) ∧ readU32 mem (c + 16) ≤ d then
    wfRegion mem (c + readU32 mem (c + 16)) (d - readU32 mem (c + 16))
  else False
termination_by d
decreasing_by omega

/-- Unfolding equation for one iteration of the decode loop. -/
theorem build_mok_loop_succ (mem : Nat → Nat) (fuel c d : Nat)
    (acc : List MokEntry) (racc : List Nat) :
    build_mok_loop mem (fuel + 1) c d acc racc =
      if d = 0 then some (acc, racc)
      else if d < readU32 mem (c + 16) then
        some (acc, racc ++ u32Reads (c + 16))
      else
        match sigRecordEntry mem c with
        | (none, rs) =>
            build_mok_loop mem fuel (c + readU32 mem (c + 16))
              (d - readU32 mem (c + 16)) acc
              (racc ++ u32Reads (c + 16) ++ rs)
        | (some e, rs) =>
            build_mok_loop mem fuel (c + readU32 mem (c + 16))
              (d - readU32 mem (c + 16)) (acc ++ [e])
              (racc ++ u32Reads (c + 16) ++ rs) := rfl

/-- Elements of `u32Reads off` lie in `[off, off + 4)`. -/
theorem mem_u32Reads {r off : Nat} (h : r ∈ u32Reads off) :
    off ≤ r ∧ r < off + 4 := by
  simp only [u32Reads, List.mem_cons, List.not_mem_nil, or_false] at h
  rcases h with h | h | h | h <;> omega

/-- Elements of `guidReads off` lie in `[off, off + 16)`. -/
theorem mem_guidReads {r off : Nat} (h : r ∈ guidReads off) :
    off ≤ r ∧ r < off + 16 := by
  simp only [guidReads, List.mem_map, List.mem_range] at h
  obtain ⟨i, hi, rfl⟩ := h
  omega

/-- All byte offsets dereferenced by one loop body (beyond the size guard)
lie within the 28-byte record header starting at `c`. -/
theorem sigRecordEntry_reads_lt (mem : Nat → Nat) (c : Nat) :
    ∀ r ∈ (sigRecordEntry mem c).2, r < c + 28 := by
  intro r hr
  unfold sigRecordEntry at hr
  by_cases h1 : readGuid mem c ≠ efiCertX509Guid ∧
      readGuid mem c ≠ efiHashSha256Guid
  · rw [if_pos h1] at hr
    have := mem_guidReads hr
    omega
  · rw [if_neg h1] at hr
    by_cases h2 : readGuid mem c = efiHashSha256Guid ∧
        readU32 mem (c + 24) ≠ 48
    · rw [if_pos h2] at hr
      simp only [List.mem_append] at hr
      rcases hr with hr | hr
      · have := mem_guidReads hr; omega
      · have := mem_u32Reads hr; omega
    · rw [if_neg h2] at hr
      simp only [List.mem_append] at hr
      rcases hr with (hr | hr) | hr
      · have := mem_guidReads hr; omega
      · have := mem_u32Reads hr; omega
      · have := mem_u32Reads hr; omega

/-- Inversion for `wfRegion` on a nonempty region: the record at the
cursor covers its header, fits in the region, and the rest is again
well-delimited. -/
theorem wfRegion_unfold (mem : Nat → Nat) (c d : Nat) (hd : d ≠ 0)
    (h : wfRegion mem c d) :
    28 ≤ readU32 mem (c + 16) ∧ readU32 mem (c + 16) ≤ d ∧
      wfRegion mem (c + readU32 mem (c + 16)) (d - readU32 mem (c + 16)) := by
  rw [wfRegion, if_neg hd] at h
  by_cases hc : 28 ≤ readU32 mem (c + 16) ∧ readU32 mem (c + 16) ≤ d
  · rw [dif_pos hc] at h
    exact ⟨hc.1, hc.2, h⟩
  · rw [dif_neg hc] at h
    exact h.elim

/-- On a well-delimited region every byte offset the decode walk
dereferences (beyond those already accumulated) lies below the region's
end `c + d`. -/
theorem build_mok_loop_reads_bounded (mem : Nat → Nat) :
    ∀ fuel c d acc racc es rs, wfRegion mem c d →
      build_mok_loop mem fuel c d acc racc = some (es, rs) →
      ∀ r ∈ rs, r ∈ racc ∨ r < c + d := by
  intro fuel
  induction fuel with
  | zero =>
    intro c d acc racc es rs _ hrun
    exact absurd hrun (by simp [build_mok_loop])
  | succ n ih =>
    intro c d acc racc es rs hwf hrun r hr
    rw [build_mok_loop_succ] at hrun
    by_cases hd : d = 0
    · rw [if_pos hd] at hrun
      cases hrun
      exact Or.inl hr
    · rw [if_neg hd] at hrun
      obtain ⟨h28, hle, hwf2⟩ := wfRegion_unfold mem c d hd hwf
      rw [if_neg (by omega)] at hrun
      rcases hse : sigRecordEntry mem c with ⟨oe, rsi⟩
      rw [hse] at hrun
      have hrdi : ∀ x ∈ rsi, x < c + 28 := by
        intro x hx
        exact sigRecordEntry_reads_lt mem c x (by rw [hse]; exact hx)
      cases oe <;>
      · have hres := ih _ _ _ _ es rs hwf2 hrun r hr
        rcases hres with hmem | hlt
        · simp only [List.mem_append] at hmem
          rcases hmem with (hmem | hmem) | hmem
          · exact Or.inl hmem
          · have h4 := mem_u32Reads hmem
            right; omega
          · have hx := hrdi r hmem
            right; omega
        · right; omega

/-- Claim C1: the code violates the never-read-past-the-buffer
requirement. Decoding a buffer of length 1 (remaining length smaller than
the fixed record header) does stop and return no entries, but evaluating
the loop guard `dbsize >= CertList->SignatureListSize` itself dereferences
the 4-byte `SignatureListSize` field at offsets 16..19, at or beyond the
buffer's length; moreover the decode result genuinely depends on those
out-of-bounds bytes: two memories that agree on every byte below the
buffer length 1 give different decode results (one diverges, one stops). -/
theorem build_mok_list_reads_out_of_bounds :
    (build_mok_loop (fun i => if i = 16 then 2 else 0) 2 0 1 [] [] =
        some ([], [16, 17, 18, 19]) ∧
      ∀ r ∈ [16, 17, 18, 19], 1 ≤ r) ∧
    (∀ i < 1, (fun _ => 0 : Nat → Nat) i = (fun j => if j = 16 then 2 else 0) i) ∧
    build_mok_loop (fun _ => 0) 2 0 1 [] [] ≠
      build_mok_loop (fun j => if j = 16 then 2 else 0) 2 0 1 [] [] := by
  decide

/-- Claim C10: the code violates the termination claim. With the all-zero
memory, a region of 28 remaining bytes holds a record whose declared
`SignatureListSize` is 0 (type GUID unrecognized), so every arm of the
loop advances the cursor and remaining size by 0 and the C loop never
terminates: the fueled walk returns `none` for every amount of fuel.
Concretely, `build_mok_list` on the 28-byte all-zero buffer diverges. -/
theorem build_mok_loop_zero_list_size_diverges :
    (∀ fuel acc racc, build_mok_loop (fun _ => 0) fuel 0 28 acc racc = none) ∧
      build_mok_list (List.replicate 28 0) = none := by
  constructor
  · intro fuel
    induction fuel with
    | zero => intro acc racc; rfl
    | succ n ih =>
      intro acc racc
      rw [build_mok_loop_succ]
      have h0 : readU32 (fun _ => 0) (0 + 16) = 0 := rfl
      have hse : sigRecordEntry (fun _ => 0) 0 = (none, guidReads 0) := by
        decide
      rw [h0, if_neg (by norm_num), if_neg (by omega), hse]
      simpa using ih acc (racc ++ u32Reads (0 + 16) ++ guidReads 0)
  · decide

/-- Claim C8: every entry produced from a SHA-256-hash-type record has
`mok_size = 32` and a 32-byte payload; records whose type GUID is neither
X.509 nor SHA-256, and hash records whose `SignatureSize` is not exactly
48 (= 32-byte hash + 16-byte owner GUID), contribute no entry (and no
error) to the decode walk. -/
theorem sigRecordEntry_hash_payload :
    ∀ (mem : Nat → Nat) (c : Nat),
      (∀ e, (sigRecordEntry mem c).1 = some e →
        readGuid mem c = efiHashSha256Guid →
        e.mok_size = 32 ∧ e.mok.length = 32) ∧
      (readGuid mem c ≠ efiCertX509Guid → readGuid mem c ≠ efiHashSha256Guid →
        (sigRecordEntry mem c).1 = none) ∧
      (readGuid mem c = efiHashSha256Guid → readU32 mem (c + 24) ≠ 48 →
        (sigRecordEntry mem c).1 = none) := by
  intro mem c
  refine ⟨?_, ?_, ?_⟩
  · intro e he hg
    by_cases h48 : readU32 mem (c + 24) = 48
    · simp only [sigRecordEntry, hg, h48] at he
      norm_num at he
      subst he
      constructor
      · norm_num [h48]
      · simp
    · simp [sigRecordEntry, hg, h48] at he
  · intro h1 h2
    simp [sigRecordEntry, h1, h2]
  · intro hg h48
    simp [sigRecordEntry, hg, h48]

/-- Example record for the C8 witness: a well-formed SHA-256 hash record
(`SignatureSize = 48`) whose single entry payload is 32 bytes of 7. -/
def mokHashRecordBytes : List Nat :=
  efiHashSha256Guid ++ writeU32 76 ++ writeU32 0 ++ writeU32 48 ++
    shimLockGuid ++ List.replicate 32 7

/-- Example record for the C8 witness: unrecognized type GUID. -/
def mokUnknownRecordBytes : List Nat :=
  List.replicate 28 1

/-- Example record for the C8 witness: SHA-256 type with `SignatureSize`
47 instead of 48. -/
def mokBadHashRecordBytes : List Nat :=
  efiHashSha256Guid ++ writeU32 60 ++ writeU32 0 ++ writeU32 47 ++
    shimLockGuid ++ List.replicate 16 9

/-- Claim C8 witness: the characterization applied to three concrete
records. -/
theorem sigRecordEntry_hash_payload_witness :
    ((⟨32, List.replicate 32 7⟩ : MokEntry).mok_size = 32 ∧
      (⟨32, List.replicate 32 7⟩ : MokEntry).mok.length = 32) ∧
    (sigRecordEntry (memOf mokUnknownRecordBytes) 0).1 = none ∧
    (sigRecordEntry (memOf mokBadHashRecordBytes) 0).1 = none :=
  ⟨(sigRecordEntry_hash_payload (memOf mokHashRecordBytes) 0).1
      ⟨32, List.replicate 32 7⟩ (by decide) (by decide),
    (sigRecordEntry_hash_payload (memOf mokUnknownRecordBytes) 0).2.1
      (by decide) (by decide),
    (sigRecordEntry_hash_payload (memOf mokBadHashRecordBytes) 0).2.2
      (by decide) (by decide)⟩

/-- `mem` holds the bytes of `L` starting at absolute offset `c`. -/
def memAgrees (mem : Nat → Nat) (c : Nat) (L : List Nat) : Prop :=
  ∀ j, j < L.length → mem (c + j) = L.getD j 0

/-- Agreement on a concatenation gives agreement on the left part. -/
theorem memAgrees_append_left {mem : Nat → Nat} {c : Nat} {A B : List Nat}
    (h : memAgrees mem c (A ++ B)) : memAgrees mem c A := by
  intro j hj
  have h2 := h j (by simp only [List.length_append]; omega)
  rwa [List.getD_append _ _ _ _ hj] at h2

/-- Agreement on a concatenation gives agreement on the right part, at the
shifted offset. -/
theorem memAgrees_append_right {mem : Nat → Nat} {c : Nat} {A B : List Nat}
    (h : memAgrees mem c (A ++ B)) : memAgrees mem (c + A.length) B := by
  intro j hj
  have h2 := h (A.length + j) (by simp only [List.length_append]; omega)
  rw [List.getD_append_right _ _ _ _ (by omega)] at h2
  have e1 : c + (A.length + j) = c + A.length + j := by omega
  have e2 : A.length + j - A.length = j := by omega
  rwa [e1, e2] at h2

/-- Reading back a stored little-endian `uint32_t`. -/
theorem readU32_of_agrees {mem : Nat → Nat} {off n : Nat}
    (h : memAgrees mem off (writeU32 n)) :
    readU32 mem off = n % 4294967296 := by
  have h0 := h 0 (by simp [writeU32])
  have h1 := h 1 (by simp [writeU32])
  have h2 := h 2 (by simp [writeU32])
  have h3 := h 3 (by simp [writeU32])
  simp only [writeU32, List.getD_cons_zero, List.getD_cons_succ,
    Nat.add_zero] at h0 h1 h2 h3
  rw [readU32, h0, h1, h2, h3]
  omega

/-- Reading a range of bytes out of an agreed-upon region. -/
theorem rangeMap_of_agrees {mem : Nat → Nat} {c : Nat} {L : List Nat}
    (h : memAgrees mem c L) (off len : Nat) (hlen : off + len ≤ L.length) :
    (List.range len).map (fun i => mem (c + off + i)) = (L.drop off).take len := by
  apply List.ext_getElem
  · simp only [List.length_map, List.length_range, List.length_take,
      List.length_drop]
    omega
  · intro i h1 h2
    simp only [List.getElem_map, List.getElem_range, List.getElem_take,
      List.getElem_drop]
    have h3 := h (off + i) (by simp only [List.length_map, List.length_range] at h1; omega)
    rw [List.getD_eq_getElem _ _ (by simp only [List.length_map, List.length_range] at h1; omega)] at h3
    rw [← Nat.add_assoc] at h3
    rw [h3]

/-- Reading a stored GUID back out of an agreed-upon region. -/
theorem readGuid_of_agrees {mem : Nat → Nat} {c : Nat} {L : List Nat}
    (h : memAgrees mem c L) (hlen : 16 ≤ L.length) :
    readGuid mem c = L.take 16 := by
  have h2 := rangeMap_of_agrees h 0 16 (by omega)
  simp only [Nat.add_zero, List.drop_zero] at h2
  rw [← h2]
  rfl

/-- `encodeRecord` written fully right-associated, for splitting
agreements field by field. -/
theorem encodeRecord_eq (b : List Nat) :
    encodeRecord b =
      efiCertX509Guid ++ (writeU32 ((b.length + 44) % 4294967296) ++
        (writeU32 0 ++ (writeU32 ((b.length + 16) % 4294967296) ++
          (shimLockGuid ++ b)))) := by
  simp [encodeRecord, sigListHeader, List.append_assoc]

theorem length_efiCertX509Guid : efiCertX509Guid.length = 16 := rfl

theorem length_shimLockGuid : shimLockGuid.length = 16 := rfl

theorem length_writeU32 (n : Nat) : (writeU32 n).length = 4 := rfl

theorem encodeRecord_length (b : List Nat) :
    (encodeRecord b).length = 44 + b.length := by
  simp [encodeRecord_eq, length_efiCertX509Guid, length_shimLockGuid,
    length_writeU32]
  omega

/-- A region holding an encoded record decodes to exactly the encoded blob
(the record type is X.509, `SignatureHeaderSize` is 0 and `SignatureSize`
is the blob length plus the owner GUID). -/
theorem sigRecordEntry_of_encodeRecord {mem : Nat → Nat} {c : Nat}
    {b : List Nat} (hag : memAgrees mem c (encodeRecord b))
    (hsm : b.length + 44 < 4294967296) :
    sigRecordEntry mem c =
      (some ⟨b.length, b⟩,
        guidReads c ++ u32Reads (c + 20) ++ u32Reads (c + 24)) := by
  rw [encodeRecord_eq] at hag
  have hA := memAgrees_append_left hag
  have hB0 := memAgrees_append_right hag
  rw [length_efiCertX509Guid] at hB0
  have hLszA := memAgrees_append_left hB0
  have hB1 := memAgrees_append_right hB0
  rw [length_writeU32] at hB1
  have e1 : c + 16 + 4 = c + 20 := by omega
  rw [e1] at hB1
  have hHdrA := memAgrees_append_left hB1
  have hB2 := memAgrees_append_right hB1
  rw [length_writeU32] at hB2
  have e2 : c + 20 + 4 = c + 24 := by omega
  rw [e2] at hB2
  have hSszA := memAgrees_append_left hB2
  have hB3 := memAgrees_append_right hB2
  rw [length_writeU32] at hB3
  have e3 : c + 24 + 4 = c + 28 := by omega
  rw [e3] at hB3
  have hOwnA := memAgrees_append_left hB3
  have hB4 := memAgrees_append_right hB3
  rw [length_shimLockGuid] at hB4
  have e4 : c + 28 + 16 = c + 44 := by omega
  rw [e4] at hB4
  have hguid : readGuid mem c = efiCertX509Guid := by
    have h := readGuid_of_agrees hA (by rw [length_efiCertX509Guid])
    rwa [show efiCertX509Guid.take 16 = efiCertX509Guid from rfl] at h
  have h16 : readU32 mem (c + 16) = b.length + 44 := by
    have h := readU32_of_agrees hLszA
    omega
  have h20 : readU32 mem (c + 20) = 0 := by
    have h := readU32_of_agrees hHdrA
    omega
  have h24 : readU32 mem (c + 24) = b.length + 16 := by
    have h := readU32_of_agrees hSszA
    omega
  have hmsz : (b.length + 16 + 4294967296 - 16) % 4294967296 = b.length := by
    omega
  have hpay : (List.range b.length).map (fun i => mem (c + 28 + 0 + 16 + i)) = b := by
    have hfun : (fun i => mem (c + 28 + 0 + 16 + i)) =
        (fun i : Nat => mem (c + 44 + 0 + i)) := by
      funext i
      have e : c + 28 + 0 + 16 + i = c + 44 + 0 + i := by omega
      rw [e]
    rw [hfun]
    have h := rangeMap_of_agrees hB4 0 b.length (by omega)
    simpa using h
  have hne : ¬(efiCertX509Guid = efiHashSha256Guid) := by decide
  simp only [sigRecordEntry, hguid, h20, h24, hmsz]
  rw [if_neg (by simp), if_neg (by simp [hne])]
  rw [hpay]

/-- The declared `SignatureListSize` of an encoded record reads back as the
blob length plus the 44-byte overhead. -/
theorem encodeRecord_listsize {mem : Nat → Nat} {c : Nat} {b : List Nat}
    (hag : memAgrees mem c (encodeRecord b))
    (hsm : b.length + 44 < 4294967296) :
    readU32 mem (c + 16) = b.length + 44 := by
  rw [encodeRecord_eq] at hag
  have hB0 := memAgrees_append_right hag
  rw [length_efiCertX509Guid] at hB0
  have hLszA := memAgrees_append_left hB0
  have h := readU32_of_agrees hLszA
  omega

/-- The decode walk over a region holding a sequence of encoded records
yields exactly one entry per blob, payloads byte-identical and in order. -/
theorem decode_encode_loop :
    ∀ (blobs : List (List Nat)) (mem : Nat → Nat) (c : Nat)
      (acc : List MokEntry) (racc : List Nat) (fuel : Nat),
      memAgrees mem c (encodeList blobs) →
      (∀ b ∈ blobs, b.length + 44 < 4294967296) →
      blobs.length < fuel →
      (build_mok_loop mem fuel c (encodeList blobs).length acc racc).map Prod.fst
        = some (acc ++ blobs.map fun b => (⟨b.length, b⟩ : MokEntry)) := by
  intro blobs
  induction blobs with
  | nil =>
    intro mem c acc racc fuel _ _ hf
    obtain ⟨n, rfl⟩ : ∃ n, fuel = n + 1 := ⟨fuel - 1, by omega⟩
    simp [encodeList, build_mok_loop_succ]
  | cons b bs ih =>
    intro mem c acc racc fuel hag hsm hf
    obtain ⟨n, rfl⟩ : ∃ n, fuel = n + 1 := ⟨fuel - 1, by omega⟩
    have hLcons : encodeList (b :: bs) = encodeRecord b ++ encodeList bs := by
      simp [encodeList]
    rw [hLcons] at hag ⊢
    have hagR := memAgrees_append_left hag
    have hagRest := memAgrees_append_right hag
    rw [encodeRecord_length] at hagRest
    have hsmb : b.length + 44 < 4294967296 := hsm b (by simp)
    have h16 := encodeRecord_listsize hagR hsmb
    have hlen : (encodeRecord b ++ encodeList bs).length =
        44 + b.length + (encodeList bs).length := by
      simp [List.length_append, encodeRecord_length]
    rw [build_mok_loop_succ, h16, sigRecordEntry_of_encodeRecord hagR hsmb]
    rw [if_neg (by rw [hlen]; omega), if_neg (by rw [hlen]; omega)]
    have ec : c + (b.length + 44) = c + (44 + b.length) := by omega
    have ed : (encodeRecord b ++ encodeList bs).length - (b.length + 44) =
        (encodeList bs).length := by
      rw [hlen]
      omega
    rw [ec, ed]
    have hres := ih mem (c + (44 + b.length)) (acc ++ [⟨b.length, b⟩])
      (racc ++ u32Reads (c + 16) ++
        (guidReads c ++ u32Reads (c + 20) ++ u32Reads (c + 24))) n hagRest
      (fun x hx => hsm x (by simp [hx])) (by simp at hf; omega)
    simpa [List.append_assoc] using hres

/-- Each encoded record is at least one byte, so the number of blobs is
bounded by the encoded buffer's length. -/
theorem length_le_encodeList (blobs : List (List Nat)) :
    blobs.length ≤ (encodeList blobs).length := by
  induction blobs with
  | nil => simp [encodeList]
  | cons b bs ih =>
    have h : encodeList (b :: bs) = encodeRecord b ++ encodeList bs := by
      simp [encodeList]
    rw [h]
    simp only [List.length_append, List.length_cons, encodeRecord_length]
    omega

/-- Claim C3: decoding the buffer produced by encoding a batch of raw key
blobs (one X.509 record per blob, `SignatureHeaderSize` 0, owner
`SHIM_LOCK_GUID`) yields exactly one entry per blob, in input order, with
`mok_size` the blob's length and payload byte-identical to the blob. The
size hypothesis reflects the 32-bit `SignatureListSize` field. -/
theorem decode_encode_roundtrip (blobs : List (List Nat))
    (hne : blobs ≠ []) (hsm : ∀ b ∈ blobs, b.length + 44 < 4294967296) :
    decodeEntries (encodeList blobs) =
      some (blobs.map fun b => (⟨b.length, b⟩ : MokEntry)) := by
  have hag : memAgrees (memOf (encodeList blobs)) 0 (encodeList blobs) := by
    intro j hj
    simp [memOf]
  have hf : blobs.length < (encodeList blobs).length + 1 :=
    Nat.lt_succ_of_le (length_le_encodeList blobs)
  have h := decode_encode_loop blobs (memOf (encodeList blobs)) 0 [] []
    ((encodeList blobs).length + 1) hag hsm hf
  simpa [decodeEntries, build_mok_list] using h

/-- Claim C3 witness: the round-trip at a concrete two-blob batch. -/
theorem decode_encode_roundtrip_witness :
    ([[1, 2, 3], [9, 8]] : List (List Nat)) ≠ [] ∧
      decodeEntries (encodeList [[1, 2, 3], [9, 8]]) =
        some [⟨3, [1, 2, 3]⟩, ⟨2, [9, 8]⟩] := by
  refine ⟨by decide, ?_⟩
  have h := decode_encode_roundtrip [[1, 2, 3], [9, 8]] (by decide) (by decide)
  simpa using h

/-- The external EFI variable store (the collaborator behind
`read_variable` / `edit_variable` / `delete_variable` / `test_variable`):
contents per (name, vendor GUID) key, plus which writes/deletes the store
would fail (modelling `edit_variable` / `delete_variable` returning a
status other than `EFI_SUCCESS`). -/
structure VarStore where
  vars : String × List Nat → Option (List Nat)
  failWrite : String × List Nat → Bool
  failDelete : String × List Nat → Bool

/-- Point update of the store contents. -/
def storeWrite (s : VarStore) (k : String × List Nat)
    (v : Option (List Nat)) : VarStore :=
  { s with vars := fun q => if q = k then v else s.vars q }

@[simp] theorem storeWrite_vars (s : VarStore) (k q : String × List Nat)
    (v : Option (List Nat)) :
    (storeWrite s k v).vars q = if q = k then v else s.vars q := rfl

@[simp] theorem storeWrite_failWrite (s : VarStore) (k : String × List Nat)
    (v : Option (List Nat)) : (storeWrite s k v).failWrite = s.failWrite := rfl

@[simp] theorem storeWrite_failDelete (s : VarStore) (k : String × List Nat)
    (v : Option (List Nat)) : (storeWrite s k v).failDelete = s.failDelete := rfl

/-- `read_variable`: `none` models a read that fails (variable absent). -/
def read_variable (s : VarStore) (k : String × List Nat) :
    Option (List Nat) := s.vars k

/-- `test_variable`: whether the variable exists. -/
def test_variable (s : VarStore) (k : String × List Nat) : Bool :=
  (s.vars k).isSome

/-- `edit_variable`: `true` = `EFI_SUCCESS`; a failed write leaves the
store unchanged. -/
def edit_variable (s : VarStore) (k : String × List Nat) (v : List Nat) :
    Bool × VarStore :=
  if s.failWrite k then (false, s)
  else (true, storeWrite s k (some v))

/-- `delete_variable`: `true` = `EFI_SUCCESS`; a failed delete leaves the
store unchanged. -/
def delete_variable (s : VarStore) (k : String × List Nat) :
    Bool × VarStore :=
  if s.failDelete k then (false, s)
  else (true, storeWrite s k none)

/-- `test_and_delete_var`: delete the variable if it exists; returns -1
only when the variable exists and deleting it fails. -/
def test_and_delete_var (s : VarStore) (k : String × List Nat) :
    Int × VarStore :=
  if test_variable s k then
    match delete_variable s k with
    | (false, s1) => (-1, s1)
    | (true, s1) => (0, s1)
  else (0, s)

/-- `is_duplicate`: read the named list and test whether any decoded entry
matches the candidate in both size and bytes. A null/empty candidate, a
missing variable, or (in C, a failed allocation) yields 0; `none` here
models the C decode loop diverging on the stored data, which the C binary
would never return from. -/
def is_duplicate (s : VarStore) (cert : List Nat) (db_name : String)
    (guid : List Nat) : Option Bool :=
  if cert.length = 0 then some false
  else
    match s.vars (db_name, guid) with
    | none => some false
    | some data =>
      match decodeEntries data with
      | none => none
      | some entries =>
          some (entries.any fun e => e.mok_size == cert.length && e.mok == cert)

/-- `is_valid_request`: eligibility of a candidate, with the C code's
short-circuit evaluation order. `imp = true` is enrollment
(`--import`), `imp = false` is deletion (`--delete`). -/
def is_valid_request (s : VarStore) (mok : List Nat) (imp : Bool) :
    Option Bool :=
  if imp then
    match is_duplicate s mok "PK" efiGlobalVariableGuid with
    | none => none
    | some true => some false
    | some false =>
      match is_duplicate s mok "KEK" efiGlobalVariableGuid with
      | none => none
      | some true => some false
      | some false =>
        match is_duplicate s mok "db" efiImageSecurityDatabaseGuid with
        | none => none
        | some true => some false
        | some false =>
          match is_duplicate s mok "MokListRT" shimLockGuid with
          | none => none
          | some true => some false
          | some false =>
            match is_duplicate s mok "MokNew" shimLockGuid with
            | none => none
            | some true => some false
            | some false => some true
  else
    match is_duplicate s mok "MokListRT" shimLockGuid with
    | none => none
    | some false => some false
    | some true =>
      match is_duplicate s mok "MokDel" shimLockGuid with
      | none => none
      | some true => some false
      | some false => some true

/-- `is_duplicate` only looks at its own named list: updating a different
variable does not change its result. -/
theorem is_duplicate_frame (s : VarStore) (v : Option (List Nat))
    (k : String × List Nat) (cert : List Nat) (db_name : String)
    (guid : List Nat) (hk : (db_name, guid) ≠ k) :
    is_duplicate (storeWrite s k v) cert db_name guid =
      is_duplicate s cert db_name guid := by
  simp only [is_duplicate, storeWrite_vars]
  rw [if_neg hk]

/-- Claim C5: eligibility characterization. In enrollment mode the
candidate is eligible iff it appears in none of PK, KEK, db, MokListRT and
MokNew, and the MokDel list is not consulted (updating it cannot change
the answer); in deletion mode the candidate is eligible iff it appears in
MokListRT and not in MokDel. -/
theorem is_valid_request_spec :
    ∀ (s : VarStore) (mok : List Nat),
      (∀ a b c d e,
        is_duplicate s mok "PK" efiGlobalVariableGuid = some a →
        is_duplicate s mok "KEK" efiGlobalVariableGuid = some b →
        is_duplicate s mok "db" efiImageSecurityDatabaseGuid = some c →
        is_duplicate s mok "MokListRT" shimLockGuid = some d →
        is_duplicate s mok "MokNew" shimLockGuid = some e →
        is_valid_request s mok true = some (!a && !b && !c && !d && !e)) ∧
      (∀ d g,
        is_duplicate s mok "MokListRT" shimLockGuid = some d →
        is_duplicate s mok "MokDel" shimLockGuid = some g →
        is_valid_request s mok false = some (d && !g)) ∧
      (∀ v, is_valid_request (storeWrite s ("MokDel", shimLockGuid) v) mok true =
        is_valid_request s mok true) := by
  intro s mok
  refine ⟨?_, ?_, ?_⟩
  · intro a b c d e ha hb hc hd he
    cases a <;> cases b <;> cases c <;> cases d <;> cases e <;>
      simp [is_valid_request, ha, hb, hc, hd, he]
  · intro d g hd hg
    cases d <;> cases g <;> simp [is_valid_request, hd, hg]
  · intro v
    simp only [is_valid_request, if_true]
    rw [is_duplicate_frame s v _ mok "PK" efiGlobalVariableGuid (by decide),
      is_duplicate_frame s v _ mok "KEK" efiGlobalVariableGuid (by decide),
      is_duplicate_frame s v _ mok "db" efiImageSecurityDatabaseGuid (by decide),
      is_duplicate_frame s v _ mok "MokListRT" shimLockGuid (by decide),
      is_duplicate_frame s v _ mok "MokNew" shimLockGuid (by decide)]

/-- Example store for the C5 witness: MokListRT holds one enrolled key
`[5]`; every other variable is absent; the store accepts all writes. -/
def mokStoreExample : VarStore :=
  { vars := fun k => if k = ("MokListRT", shimLockGuid) then
      some (encodeRecord [5]) else none,
    failWrite := fun _ => false,
    failDelete := fun _ => false }

/-- Claim C5 witness: the characterization applied to a concrete store in
which `[5]` is enrolled: it is ineligible for enrollment, eligible for
deletion, and the answer ignores a MokDel update. -/
theorem is_valid_request_spec_witness :
    is_valid_request mokStoreExample [5] true = some false ∧
    is_valid_request mokStoreExample [5] false = some true ∧
    is_valid_request (storeWrite mokStoreExample ("MokDel", shimLockGuid)
        (some [1, 2])) [5] true =
      is_valid_request mokStoreExample [5] true :=
  ⟨(is_valid_request_spec mokStoreExample [5]).1 false false false true false
      (by decide) (by decide) (by decide) (by decide) (by decide),
    (is_valid_request_spec mokStoreExample [5]).2.1 true false
      (by decide) (by decide),
    (is_valid_request_spec mokStoreExample [5]).2.2 (some [1, 2])⟩

/-- Modelled from the spec (§4.4): `efichar_from_char` (declared in the
missing efi.h) re-encodes the password as UTF-16LE,
truncated/padded to the fixed 16-code-unit budget (`PASSWORD_MAX`)
matching the firmware-side verifier's fixed-size password buffer; each
code unit is stored as two little-endian bytes. -/
def efichar_from_char (password : List Nat) : List Nat :=
  ((password ++ List.replicate 16 0).take 16).flatMap
    fun u => [u % 256, u / 256 % 256]

/-- `SHA_256_CTX` as the sequence of bytes streamed into it so far; the
compression function itself is the OpenSSL collaborator, abstracted as a
`sha256` digest function parameter where needed. -/
structure SHA256State where
  buf : List Nat

def SHA256_Init : SHA256State := ⟨[]⟩

def SHA256_Update (ctx : SHA256State) (data : List Nat) : SHA256State :=
  ⟨ctx.buf ++ data⟩

def SHA256_Final (sha256 : List Nat → List Nat) (ctx : SHA256State) :
    List Nat :=
  sha256 ctx.buf

/-- `generate_auth`: stream the pending list's raw bytes (if a list is
present) and then the re-encoded password into SHA-256 and finalize.
(The C null checks on `password`/`auth` do not arise here: every caller
passes a present password and output buffer.) -/
def generate_auth (sha256 : List Nat → List Nat)
    (new_list : Option (List Nat)) (password : List Nat) : List Nat :=
  let efichar_pass := efichar_from_char password
  let ctx0 := SHA256_Init
  let ctx1 :=
    match new_list with
    | some l => SHA256_Update ctx0 l
    | none => ctx0
  let ctx2 := SHA256_Update ctx1 efichar_pass
  SHA256_Final sha256 ctx2

/-- Modelled from the spec (§4.4): `deriveTag(listBytesOrAbsent, password)`
digests the concatenation of the pending list's raw bytes (absent =
zero-length) followed by the UTF-16LE re-encoded password. -/
def deriveTag (sha256 : List Nat → List Nat)
    (listBytesOrAbsent : Option (List Nat)) (password : List Nat) :
    List Nat :=
  sha256 (listBytesOrAbsent.getD [] ++ efichar_from_char password)

/-- Claim C4: `generate_auth` digests exactly the pending-list bytes (an
absent list contributing zero bytes) followed by the UTF-16LE password
re-encoding padded/truncated to the 16-code-unit budget (32 bytes), in
that order, and the tag is 32 bytes whenever the digest collaborator
produces 32-byte outputs. -/
theorem generate_auth_spec :
    ∀ (sha256 : List Nat → List Nat) (nl : Option (List Nat))
      (pw : List Nat),
      generate_auth sha256 nl pw = deriveTag sha256 nl pw ∧
      (efichar_from_char pw).length = 32 ∧
      ((∀ l, (sha256 l).length = 32) →
        (generate_auth sha256 nl pw).length = 32) := by
  intro sha256 nl pw
  refine ⟨?_, ?_, fun h => h _⟩
  · cases nl <;>
      simp [generate_auth, deriveTag, SHA256_Init, SHA256_Update, SHA256_Final]
  · rw [efichar_from_char, List.length_flatMap]
    have hlen : (List.take 16 (pw ++ List.replicate 16 0)).length = 16 := by
      simp only [List.length_take, List.length_append, List.length_replicate]
      omega
    have hmap : List.map (List.length ∘ fun u => ([u % 256, u / 256 % 256] : List Nat))
        (List.take 16 (pw ++ List.replicate 16 0)) = List.replicate 16 2 := by
      rw [List.eq_replicate_iff]
      refine ⟨by simp [hlen], ?_⟩
      intro x hx
      simp only [List.mem_map, Function.comp_apply] at hx
      obtain ⟨u, -, rfl⟩ := hx
      rfl
    rw [hmap]
    simp

/-- Claim C4 witness: the characterization applied to a concrete digest
function, list and password. -/
theorem generate_auth_spec_witness :
    generate_auth (fun _ => List.replicate 32 0) (some [1]) [97] =
        deriveTag (fun _ => List.replicate 32 0) (some [1]) [97] ∧
      (generate_auth (fun _ => List.replicate 32 0) (some [1]) [97]).length
        = 32 :=
  ⟨(generate_auth_spec (fun _ => List.replicate 32 0) (some [1]) [97]).1,
    (generate_auth_spec (fun _ => List.replicate 32 0) (some [1]) [97]).2.2
      fun l => by simp⟩

/-- First loop of `get_password`: up to `n` attempts to read a line whose
length lies in `[minLen, maxLen]`. Interactive input is a stream
`inputs : Nat → List Nat` of lines consumed at increasing positions. -/
def getPassLoop1 (inputs : Nat → List Nat) (minLen maxLen : Nat) :
    Nat → Nat → Option (List Nat) × Nat
  | pos, 0 => (none, pos)
  | pos, n + 1 =>
    let p := inputs pos
    if p.length > maxLen ∨ p.length < minLen then
      getPassLoop1 inputs minLen maxLen (pos + 1) n
    else (some p, pos + 1)

/-- Second loop of `get_password`: up to `n` attempts to read a
confirmation line equal to the first password. -/
def getPassLoop2 (inputs : Nat → List Nat) (pw : List Nat) :
    Nat → Nat → Bool × Nat
  | pos, 0 => (false, pos)
  | pos, n + 1 =>
    let q := inputs pos
    if q.length ≠ pw.length ∨ q ≠ pw then getPassLoop2 inputs pw (pos + 1) n
    else (true, pos + 1)

/-- `get_password`: read a new password (3 length attempts, then 3
confirmation attempts); `none` = abort. Returns the new input cursor. -/
def get_password (inputs : Nat → List Nat) (pos minLen maxLen : Nat) :
    Option (List Nat) × Nat :=
  match getPassLoop1 inputs minLen maxLen pos 3 with
  | (none, pos1) => (none, pos1)
  | (some pw, pos1) =>
    match getPassLoop2 inputs pw pos1 3 with
    | (false, pos2) => (none, pos2)
    | (true, pos2) => (some pw, pos2)

/-- `memcmp(a, b, n) == 0` on byte lists. -/
def memcmpN (n : Nat) (a b : List Nat) : Bool :=
  (List.range n).all fun i => a.getD i 0 == b.getD i 0

/-- The retry loop of `verify_old_req`: up to `n` password attempts; a
line of invalid length or one whose derived tag does not match the stored
tag counts as a failure. -/
def verifyLoop (sha256 : List Nat → List Nat) (inputs : Nat → List Nat)
    (old_req stored : List Nat) : Nat → Nat → Bool × Nat
  | pos, 0 => (false, pos)
  | pos, n + 1 =>
    let pw := inputs pos
    if pw.length > 16 ∨ pw.length < 8 then
      verifyLoop sha256 inputs old_req stored (pos + 1) n
    else if memcmpN 32 (generate_auth sha256 (some old_req) pw) stored then
      (true, pos + 1)
    else verifyLoop sha256 inputs old_req stored (pos + 1) n

/-- `verify_old_req`: read the stored authentication tag (`MokAuth` or
`MokDelAuth`) and challenge the operator up to 3 times; a missing tag
variable fails immediately with no prompt. -/
def verify_old_req (sha256 : List Nat → List Nat) (s : VarStore)
    (inputs : Nat → List Nat) (pos : Nat) (old_req : List Nat)
    (imp : Bool) : Bool × Nat :=
  let auth_name := if imp then "MokAuth" else "MokDelAuth"
  match read_variable s (auth_name, shimLockGuid) with
  | none => (false, pos)
  | some stored => verifyLoop sha256 inputs old_req stored pos 3

/-- `update_request`: prompt for a new password, derive the tag, write the
pending-list variable (or delete it when `new_list` is absent), then write
the tag variable; if the tag write fails, delete the pending-list variable
(rollback) and fail. Returns (ret, final store, input cursor). -/
def update_request (sha256 : List Nat → List Nat) (s : VarStore)
    (inputs : Nat → List Nat) (pos : Nat) (new_list : Option (List Nat))
    (imp : Bool) : Int × VarStore × Nat :=
  let req_name := if imp then "MokNew" else "MokDel"
  let auth_name := if imp then "MokAuth" else "MokDelAuth"
  match get_password inputs pos 8 16 with
  | (none, pos1) => (-1, s, pos1)
  | (some pw, pos1) =>
    let auth := generate_auth sha256 new_list pw
    let step1 : Option VarStore :=
      match new_list with
      | some bytes =>
        match edit_variable s (req_name, shimLockGuid) bytes with
        | (false, _) => none
        | (true, s1) => some s1
      | none => some (test_and_delete_var s (req_name, shimLockGuid)).2
    match step1 with
    | none => (-1, s, pos1)
    | some s1 =>
      match edit_variable s1 (auth_name, shimLockGuid) auth with
      | (true, s2) => (0, s2, pos1)
      | (false, s2) =>
        (-1, (test_and_delete_var s2 (req_name, shimLockGuid)).2, pos1)

/-- Claim C6: when the pending-list write succeeds but the tag write
fails, `update_request` deletes the pending-list variable it just wrote,
returns failure, and touches no other variable: no governed pending list
is left in place without its authentication tag. -/
theorem update_request_rollback :
    ∀ (sha256 : List Nat → List Nat) (s : VarStore)
      (inputs : Nat → List Nat) (pos : Nat) (bytes : List Nat) (imp : Bool)
      (pw : List Nat) (pos1 : Nat),
      get_password inputs pos 8 16 = (some pw, pos1) →
      s.failWrite ((if imp then "MokNew" else "MokDel"), shimLockGuid) = false →
      s.failWrite ((if imp then "MokAuth" else "MokDelAuth"), shimLockGuid) = true →
      s.failDelete ((if imp then "MokNew" else "MokDel"), shimLockGuid) = false →
      ∃ s2, update_request sha256 s inputs pos (some bytes) imp =
          (-1, s2, pos1) ∧
        s2.vars ((if imp then "MokNew" else "MokDel"), shimLockGuid) = none ∧
        ∀ k, k ≠ (((if imp then "MokNew" else "MokDel"), shimLockGuid) :
            String × List Nat) → s2.vars k = s.vars k := by
  intro sha256 s inputs pos bytes imp pw pos1 hpw hw ha hd
  refine ⟨storeWrite
      (storeWrite s ((if imp then "MokNew" else "MokDel"), shimLockGuid)
        (some bytes))
      ((if imp then "MokNew" else "MokDel"), shimLockGuid) none, ?_, ?_, ?_⟩
  · simp only [update_request, hpw, edit_variable, hw, Bool.false_eq_true,
      if_false, storeWrite_failWrite, ha, if_true, test_and_delete_var,
      test_variable, storeWrite_vars, if_pos rfl, Option.isSome_some,
      delete_variable, storeWrite_failDelete, hd]
  · simp
  · intro k hk
    simp [hk]

/-- Store for the C6 witness: empty, and exactly the MokAuth write fails. -/
def rollbackStoreExample : VarStore :=
  { vars := fun _ => none,
    failWrite := fun k => decide (k = ("MokAuth", shimLockGuid)),
    failDelete := fun _ => false }

/-- Input stream for the C6 witness: every line is the 8-character
password "aaaaaaaa". -/
def rollbackInputsExample : Nat → List Nat := fun _ => List.replicate 8 97

/-- Claim C6 witness: the rollback theorem applied to a concrete store
whose MokAuth write fails. -/
theorem update_request_rollback_witness :
    ∃ s2, update_request (fun _ => List.replicate 32 0)
        rollbackStoreExample rollbackInputsExample 0 (some [7]) true =
        (-1, s2, 2) ∧
      s2.vars ("MokNew", shimLockGuid) = none ∧
      ∀ k, k ≠ (("MokNew", shimLockGuid) : String × List Nat) →
        s2.vars k = rollbackStoreExample.vars k := by
  have h := update_request_rollback (fun _ => List.replicate 32 0)
    rollbackStoreExample rollbackInputsExample 0 [7] true
    (List.replicate 8 97) 2 (by decide) (by decide) (by decide) (by decide)
  simpa using h

/-- Overwrite the bytes of `l` at offsets `[off, off + bs.length)` with
`bs`, the list counterpart of writing through a pointer into the
`new_list` buffer. -/
def listWrite (l : List Nat) (off : Nat) (bs : List Nat) : List Nat :=
  l.take off ++ bs ++ l.drop (off + bs.length)

/-- An in-bounds write preserves the buffer's length. -/
theorem listWrite_length {l bs : List Nat} {off : Nat}
    (h : off + bs.length ≤ l.length) :
    (listWrite l off bs).length = l.length := by
  simp only [listWrite, List.length_append, List.length_take,
    List.length_drop]
  omega

/-- A write at or after offset `p` does not change the first `p` bytes. -/
theorem listWrite_take_below {l bs : List Nat} {off p : Nat}
    (hpo : p ≤ off) (hpl : p ≤ l.length) :
    (listWrite l off bs).take p = l.take p := by
  rw [listWrite, List.take_append_eq_append_take]
  have h1 : p - (l.take off ++ bs).length = 0 := by
    simp only [List.length_append, List.length_take]
    omega
  rw [h1, List.take_zero, List.append_nil, List.take_append_eq_append_take]
  have h2 : p - (l.take off).length = 0 := by
    simp only [List.length_take]
    omega
  rw [h2, List.take_zero, List.append_nil, List.take_take,
    Nat.min_eq_left hpo]

/-- Reading back the written region together with the untouched prefix. -/
theorem listWrite_take_all {l bs : List Nat} {off : Nat}
    (h : off + bs.length ≤ l.length) :
    (listWrite l off bs).take (off + bs.length) = l.take off ++ bs := by
  have hl : (l.take off ++ bs).length = off + bs.length := by
    simp only [List.length_append, List.length_take]
    omega
  rw [listWrite, ← hl, List.take_left]

theorem length_sigListHeader (n : Nat) : (sigListHeader n).length = 44 := by
  simp [sigListHeader, efiCertX509Guid, shimLockGuid, writeU32]

/-- The candidate-processing loop of `issue_mok_request`. For each file
(name, blob) it writes the 44-byte record header at `ptr` and the blob at
`ptr + 44` into the flat `new_list` buffer, then consults
`is_valid_request`: an eligible file advances `ptr` (= `real_size`) past
its record, an ineligible one is announced (`Skip <name>`) and rolls the
pointer back, leaving its bytes to be overwritten by the next record.
Returns (buffer, real_size, skip notices); `none` propagates a diverging
duplicate check. -/
def mok_scan (s : VarStore) (imp : Bool) :
    List (String × List Nat) → List Nat → Nat →
    Option (List Nat × Nat × List String)
  | [], buf, ptr => some (buf, ptr, [])
  | (name, blob) :: rest, buf, ptr =>
    let buf1 := listWrite buf ptr (sigListHeader blob.length)
    let buf2 := listWrite buf1 (ptr + 44) blob
    match is_valid_request s blob imp with
    | none => none
    | some true => mok_scan s imp rest buf2 (ptr + (44 + blob.length))
    | some false =>
      match mok_scan s imp rest buf2 ptr with
      | none => none
      | some (b, r, sk) => some (b, r, name :: sk)

/-- The blobs of the files `is_valid_request` accepts, in input order. -/
def eligBlobs (s : VarStore) (imp : Bool)
    (files : List (String × List Nat)) : List (List Nat) :=
  (files.filter fun f => is_valid_request s f.2 imp == some true).map
    Prod.snd

/-- Total encoded size of the eligible files' records. -/
def eligSize (s : VarStore) (imp : Bool)
    (files : List (String × List Nat)) : Nat :=
  ((files.filter fun f => is_valid_request s f.2 imp == some true).map
    fun f => 44 + f.2.length).sum

/-- The names of the files `is_valid_request` rejects, in input order. -/
def skipNames (s : VarStore) (imp : Bool)
    (files : List (String × List Nat)) : List String :=
  (files.filter fun f => is_valid_request s f.2 imp == some false).map
    Prod.fst

/-- Characterization of `mok_scan`: when no duplicate check diverges and
the buffer has room for every record, the scan succeeds, its final
`real_size` counts exactly the eligible records, its notices name exactly
the skipped files in order, and the first `real_size` bytes of the final
buffer are exactly the concatenated encoded records of the eligible files
— no residue of any skipped file, regardless of the buffer's initial
contents. -/
theorem mok_scan_spec :
    ∀ (files : List (String × List Nat)) (s : VarStore) (imp : Bool)
      (buf : List Nat) (ptr : Nat),
      (∀ f ∈ files, is_valid_request s f.2 imp ≠ none) →
      ptr + ((files.map fun f => 44 + f.2.length).sum) ≤ buf.length →
      ∃ b2, mok_scan s imp files buf ptr =
          some (b2, ptr + eligSize s imp files, skipNames s imp files) ∧
        b2.length = buf.length ∧
        b2.take (ptr + eligSize s imp files) =
          buf.take ptr ++ encodeList (eligBlobs s imp files) := by
  intro files
  induction files with
  | nil =>
    intro s imp buf ptr _ _
    refine ⟨buf, ?_, rfl, ?_⟩
    · simp [mok_scan, eligSize, skipNames]
    · simp [eligSize, eligBlobs, encodeList]
  | cons f rest ih =>
    obtain ⟨name, blob⟩ := f
    intro s imp buf ptr hnd hcap
    have hcap0 : ptr + (44 + blob.length) +
        ((rest.map fun f => 44 + f.2.length).sum) ≤ buf.length := by
      simp only [List.map_cons, List.sum_cons] at hcap
      omega
    have hb1len : (listWrite buf ptr (sigListHeader blob.length)).length
        = buf.length := by
      rw [listWrite_length]
      rw [length_sigListHeader]
      omega
    have hb2len : (listWrite (listWrite buf ptr (sigListHeader blob.length))
        (ptr + 44) blob).length = buf.length := by
      rw [listWrite_length (by rw [hb1len]; omega), hb1len]
    rcases hvr : is_valid_request s blob imp with - | v
    · exact absurd hvr (hnd (name, blob) (by simp))
    rcases v with - | -
    · -- ineligible: some false
      have hrec := ih s imp
        (listWrite (listWrite buf ptr (sigListHeader blob.length))
          (ptr + 44) blob) ptr
        (fun g hg => hnd g (by simp [hg]))
        (by rw [hb2len]; simp only [List.map_cons, List.sum_cons] at hcap; omega)
      obtain ⟨b2, hscan, hlen, htake⟩ := hrec
      refine ⟨b2, ?_, by rw [hlen, hb2len], ?_⟩
      · simp only [mok_scan, hvr, hscan]
        have hfe : eligSize s imp ((name, blob) :: rest) =
            eligSize s imp rest := by
          simp [eligSize, List.filter_cons, hvr]
        have hfs : skipNames s imp ((name, blob) :: rest) =
            name :: skipNames s imp rest := by
          simp [skipNames, List.filter_cons, hvr]
        rw [hfe, hfs]
      · have hfe : eligSize s imp ((name, blob) :: rest) =
            eligSize s imp rest := by
          simp [eligSize, List.filter_cons, hvr]
        have hfb : eligBlobs s imp ((name, blob) :: rest) =
            eligBlobs s imp rest := by
          simp [eligBlobs, List.filter_cons, hvr]
        rw [hfe, hfb, htake]
        have hpre : (listWrite (listWrite buf ptr (sigListHeader blob.length))
            (ptr + 44) blob).take ptr = buf.take ptr := by
          rw [listWrite_take_below (by omega) (by rw [hb1len]; omega),
            listWrite_take_below (le_refl ptr) (by omega)]
        rw [hpre]
    · -- eligible: some true
      have hrec := ih s imp
        (listWrite (listWrite buf ptr (sigListHeader blob.length))
          (ptr + 44) blob) (ptr + (44 + blob.length))
        (fun g hg => hnd g (by simp [hg]))
        (by rw [hb2len]; omega)
      obtain ⟨b2, hscan, hlen, htake⟩ := hrec
      refine ⟨b2, ?_, by rw [hlen, hb2len], ?_⟩
      · simp only [mok_scan, hvr, hscan]
        have hfe : eligSize s imp ((name, blob) :: rest) =
            44 + blob.length + eligSize s imp rest := by
          simp [eligSize, List.filter_cons, hvr]
        have hfs : skipNames s imp ((name, blob) :: rest) =
            skipNames s imp rest := by
          simp [skipNames, List.filter_cons, hvr]
        rw [hfe, hfs]
        have e : ptr + (44 + blob.length) + eligSize s imp rest =
            ptr + (44 + blob.length + eligSize s imp rest) := by omega
        rw [e]
      · have hfe : eligSize s imp ((name, blob) :: rest) =
            44 + blob.length + eligSize s imp rest := by
          simp [eligSize, List.filter_cons, hvr]
        have hfb : eligBlobs s imp ((name, blob) :: rest) =
            blob :: eligBlobs s imp rest := by
          simp [eligBlobs, List.filter_cons, hvr]
        rw [hfe, hfb]
        have e : ptr + (44 + blob.length + eligSize s imp rest) =
            (ptr + (44 + blob.length)) + eligSize s imp rest := by omega
        rw [e, htake]
        have hpre : (listWrite (listWrite buf ptr (sigListHeader blob.length))
            (ptr + 44) blob).take (ptr + (44 + blob.length)) =
            buf.take ptr ++ encodeRecord blob := by
          have e2 : ptr + (44 + blob.length) = (ptr + 44) + blob.length := by
            omega
          rw [e2, listWrite_take_all (by rw [hb1len]; omega)]
          have e3 : ptr + 44 = ptr + (sigListHeader blob.length).length := by
            rw [length_sigListHeader]
          rw [e3, listWrite_take_all (by rw [length_sigListHeader]; omega)]
          rw [encodeRecord, List.append_assoc]
        rw [hpre]
        have hcons : encodeList (blob :: eligBlobs s imp rest) =
            encodeRecord blob ++ encodeList (eligBlobs s imp rest) := by
          simp [encodeList]
        rw [hcons, List.append_assoc]

/-- The allocation size `list_size` computed by `issue_mok_request`: the
sum of the file sizes, plus `sizeof(EFI_SIGNATURE_LIST) +
sizeof(efi_guid_t) = 44` bytes per file, plus the size of the existing
pending request if one can be read. -/
def issueListSize (s : VarStore) (imp : Bool)
    (files : List (String × List Nat)) : Nat :=
  (files.map fun f => f.2.length).sum + 44 * files.length +
    (match read_variable s ((if imp then "MokNew" else "MokDel"),
        shimLockGuid) with
     | some o => o.length
     | none => 0)

/-- `issue_mok_request`: build the new pending list from the candidate
files, abort successfully (no-op) if nothing is eligible, authenticate
and append any prior pending request, and commit through
`update_request`. `junk` models the unspecified contents of the
malloc'ed `new_list` buffer; `inputs`/`pos` the stdin line stream.
Returns (ret, store, input cursor, skip notices); `none` propagates a
diverging duplicate check. -/
def issue_mok_request (sha256 : List Nat → List Nat) (junk : Nat → Nat)
    (s : VarStore) (inputs : Nat → List Nat) (pos : Nat)
    (files : List (String × List Nat)) (imp : Bool) :
    Option (Int × VarStore × Nat × List String) :=
  let req_name := if imp then "MokNew" else "MokDel"
  let old := read_variable s (req_name, shimLockGuid)
  let buf0 := (List.range (issueListSize s imp files)).map junk
  match mok_scan s imp files buf0 0 with
  | none => none
  | some (buf, realSize, skips) =>
    if realSize = 0 then some (0, s, pos, skips)
    else
      match old with
      | some oldBytes =>
        match verify_old_req sha256 s inputs pos oldBytes imp with
        | (false, pos1) => some (-1, s, pos1, skips)
        | (true, pos1) =>
          let buf2 := listWrite buf realSize oldBytes
          let r := update_request sha256 s inputs pos1
            (some (buf2.take (realSize + oldBytes.length))) imp
          some (r.1, r.2.1, r.2.2, skips)
      | none =>
        let r := update_request sha256 s inputs pos
          (some (buf.take realSize)) imp
        some (r.1, r.2.1, r.2.2, skips)

/-- If every one of `n` successive input lines fails the challenge (bad
length or non-matching derived tag), the verify loop fails and consumes
exactly those `n` lines. -/
theorem verifyLoop_all_fail (sha256 : List Nat → List Nat)
    (inputs : Nat → List Nat) (old_req stored : List Nat) :
    ∀ n pos,
      (∀ j, j < n → (inputs (pos + j)).length > 16 ∨
        (inputs (pos + j)).length < 8 ∨
        memcmpN 32 (generate_auth sha256 (some old_req) (inputs (pos + j)))
          stored = false) →
      verifyLoop sha256 inputs old_req stored pos n = (false, pos + n) := by
  intro n
  induction n with
  | zero =>
    intro pos _
    simp [verifyLoop]
  | succ m ih =>
    intro pos h
    have h0 := h 0 (by omega)
    simp only [Nat.add_zero] at h0
    have hrest : ∀ j, j < m → (inputs (pos + 1 + j)).length > 16 ∨
        (inputs (pos + 1 + j)).length < 8 ∨
        memcmpN 32 (generate_auth sha256 (some old_req) (inputs (pos + 1 + j)))
          stored = false := by
      intro j hj
      have := h (j + 1) (by omega)
      have e : pos + (j + 1) = pos + 1 + j := by omega
      rwa [e] at this
    by_cases hlen : (inputs pos).length > 16 ∨ (inputs pos).length < 8
    · rw [verifyLoop, if_pos hlen, ih (pos + 1) hrest]
      have e : pos + 1 + m = pos + (m + 1) := by omega
      rw [e]
    · have hm : memcmpN 32 (generate_auth sha256 (some old_req) (inputs pos))
          stored = false := by
        rcases h0 with h0 | h0 | h0
        · exact absurd (Or.inl h0) hlen
        · exact absurd (Or.inr h0) hlen
        · exact h0
      rw [verifyLoop, if_neg hlen, if_neg (by rw [hm]; simp),
        ih (pos + 1) hrest]
      have e : pos + 1 + m = pos + (m + 1) := by omega
      rw [e]

/-- Claim C2: if a prior pending request exists (with its stored tag) and
all 3 password attempts fail the challenge, the whole operation aborts
with -1: the store is returned untouched, so the prior pending list and
its tag are byte-for-byte unchanged and no candidate is committed
anywhere; exactly the 3 challenge lines are consumed. -/
theorem issue_mok_request_auth_gate :
    ∀ (sha256 : List Nat → List Nat) (junk : Nat → Nat) (s : VarStore)
      (inputs : Nat → List Nat) (pos : Nat)
      (files : List (String × List Nat)) (imp : Bool)
      (oldBytes stored bufv : List Nat) (rsv : Nat) (skv : List String),
      s.vars ((if imp then "MokNew" else "MokDel"), shimLockGuid) =
        some oldBytes →
      s.vars ((if imp then "MokAuth" else "MokDelAuth"), shimLockGuid) =
        some stored →
      mok_scan s imp files
        ((List.range (issueListSize s imp files)).map junk) 0 =
        some (bufv, rsv, skv) →
      rsv ≠ 0 →
      (∀ j, j < 3 → (inputs (pos + j)).length > 16 ∨
        (inputs (pos + j)).length < 8 ∨
        memcmpN 32 (generate_auth sha256 (some oldBytes) (inputs (pos + j)))
          stored = false) →
      issue_mok_request sha256 junk s inputs pos files imp =
        some (-1, s, pos + 3, skv) := by
  intro sha256 junk s inputs pos files imp oldBytes stored bufv rsv skv
    hold hauth hscan hrs hfail
  have hver : verify_old_req sha256 s inputs pos oldBytes imp =
      (false, pos + 3) := by
    simp only [verify_old_req, read_variable, hauth]
    exact verifyLoop_all_fail sha256 inputs oldBytes stored 3 pos hfail
  simp only [issue_mok_request, read_variable, hold, hscan]
  rw [if_neg hrs, hver]

/-- Store for the C2 witness: a prior pending request `MokNew` holding the
record of key `[2]`, with stored tag `MokAuth` = 32 zero bytes; all
writes/deletes would succeed (none are attempted). -/
def authGateStoreExample : VarStore :=
  { vars := fun k =>
      if k = ("MokNew", shimLockGuid) then some (encodeRecord [2])
      else if k = ("MokAuth", shimLockGuid) then some (List.replicate 32 0)
      else none,
    failWrite := fun _ => false,
    failDelete := fun _ => false }

/-- Claim C2 witness: with a digest collaborator that returns 32 ones
(never matching the stored all-zero tag), three well-formed password
attempts all fail and the import of `a.der` aborts with the store
untouched. -/
theorem issue_mok_request_auth_gate_witness :
    issue_mok_request (fun _ => List.replicate 32 1) (fun _ => 0)
        authGateStoreExample (fun _ => List.replicate 8 97) 0
        [("a.der", [1])] true =
      some (-1, authGateStoreExample, 0 + 3, []) :=
  issue_mok_request_auth_gate (fun _ => List.replicate 32 1) (fun _ => 0)
    authGateStoreExample (fun _ => List.replicate 8 97) 0 [("a.der", [1])]
    true (encodeRecord [2]) (List.replicate 32 0)
    (encodeRecord [1] ++ List.replicate 45 0) 45 []
    (by decide) (by decide) (by decide) (by decide)
    (by decide)

/-- Per-record overhead accounting: the scan's capacity requirement equals
the 44-bytes-per-file overhead plus the file sizes. -/
theorem sum_record_sizes (files : List (String × List Nat)) :
    ((files.map fun f => 44 + f.2.length).sum) =
      44 * files.length + (files.map fun f => f.2.length).sum := by
  induction files with
  | nil => simp
  | cons f rest ih =>
    simp only [List.map_cons, List.sum_cons, List.length_cons, ih]
    omega

/-- Claim C9: if every candidate is ineligible, the operation returns 0 as
a pure no-op: the store is untouched (nothing read-modified or written),
the input cursor is unchanged (no password prompt, no prior-request
authentication), and each file is announced as skipped. -/
theorem issue_mok_request_noop :
    ∀ (sha256 : List Nat → List Nat) (junk : Nat → Nat) (s : VarStore)
      (inputs : Nat → List Nat) (pos : Nat)
      (files : List (String × List Nat)) (imp : Bool),
      (∀ f ∈ files, is_valid_request s f.2 imp = some false) →
      issue_mok_request sha256 junk s inputs pos files imp =
        some (0, s, pos, files.map Prod.fst) := by
  intro sha256 junk s inputs pos files imp hf
  have hnd : ∀ f ∈ files, is_valid_request s f.2 imp ≠ none := by
    intro f hfm
    rw [hf f hfm]
    simp
  have hcap : 0 + ((files.map fun f => 44 + f.2.length).sum) ≤
      ((List.range (issueListSize s imp files)).map junk).length := by
    simp only [List.length_map, List.length_range, issueListSize]
    rw [sum_record_sizes]
    omega
  obtain ⟨b2, hscan, hlen, htake⟩ := mok_scan_spec files s imp _ 0 hnd hcap
  have helig : eligSize s imp files = 0 := by
    have hnilt : (files.filter fun f =>
        is_valid_request s f.2 imp == some true) = [] := by
      rw [List.filter_eq_nil_iff]
      intro a ha
      rw [hf a ha]
      simp
    rw [eligSize, hnilt]
    simp
  have hskip : skipNames s imp files = files.map Prod.fst := by
    have hall : (files.filter fun f =>
        is_valid_request s f.2 imp == some false) = files := by
      rw [List.filter_eq_self]
      intro a ha
      rw [hf a ha]
      simp
    rw [skipNames, hall]
  rw [helig, hskip] at hscan
  simp only [issue_mok_request, hscan]
  norm_num

/-- Store for the C9 witness: `[5]` is already enrolled in MokListRT. -/
def noopStoreExample : VarStore :=
  { vars := fun k => if k = ("MokListRT", shimLockGuid) then
      some (encodeRecord [5]) else none,
    failWrite := fun _ => false,
    failDelete := fun _ => false }

/-- Claim C9 witness: importing a single already-enrolled key is a
successful no-op that only prints the skip notice. -/
theorem issue_mok_request_noop_witness :
    issue_mok_request (fun _ => List.replicate 32 1) (fun _ => 0)
        noopStoreExample (fun _ => List.replicate 8 97) 0
        [("dup.der", [5])] true =
      some (0, noopStoreExample, 0, ["dup.der"]) :=
  issue_mok_request_noop (fun _ => List.replicate 32 1) (fun _ => 0)
    noopStoreExample (fun _ => List.replicate 8 97) 0 [("dup.der", [5])]
    true (by decide)

/-- Claim C7: with no prior pending request, writes that succeed, and at
least one eligible candidate, the commit writes as the pending list
exactly the concatenated encoded records of the eligible files, in input
order (no residue of any skipped file within the committed length, for
every initial content of the malloc'ed buffer), announces exactly the
skipped files by name, and stores a tag derived over exactly those
eligible-only bytes plus the chosen password; no other variable changes. -/
theorem issue_mok_request_commit :
    ∀ (sha256 : List Nat → List Nat) (junk : Nat → Nat) (s : VarStore)
      (inputs : Nat → List Nat) (pos : Nat)
      (files : List (String × List Nat)) (imp : Bool) (pw : List Nat)
      (pos1 : Nat),
      s.vars ((if imp then "MokNew" else "MokDel"), shimLockGuid) = none →
      (∀ f ∈ files, is_valid_request s f.2 imp ≠ none) →
      (∃ f ∈ files, is_valid_request s f.2 imp = some true) →
      get_password inputs pos 8 16 = (some pw, pos1) →
      s.failWrite ((if imp then "MokNew" else "MokDel"), shimLockGuid) =
        false →
      s.failWrite ((if imp then "MokAuth" else "MokDelAuth"), shimLockGuid) =
        false →
      ∃ s2,
        issue_mok_request sha256 junk s inputs pos files imp =
          some (0, s2, pos1, skipNames s imp files) ∧
        s2.vars ((if imp then "MokNew" else "MokDel"), shimLockGuid) =
          some (encodeList (eligBlobs s imp files)) ∧
        s2.vars ((if imp then "MokAuth" else "MokDelAuth"), shimLockGuid) =
          some (generate_auth sha256
            (some (encodeList (eligBlobs s imp files))) pw) ∧
        ∀ k, k ≠ (((if imp then "MokNew" else "MokDel"), shimLockGuid) :
            String × List Nat) →
          k ≠ (((if imp then "MokAuth" else "MokDelAuth"), shimLockGuid) :
            String × List Nat) →
          s2.vars k = s.vars k := by
  intro sha256 junk s inputs pos files imp pw pos1 hold hnd hex hpw hfwr hfwa
  have hneq : (((if imp then "MokNew" else "MokDel") : String), shimLockGuid)
      ≠ (((if imp then "MokAuth" else "MokDelAuth") : String),
        shimLockGuid) := by
    cases imp <;> decide
  have hcap : 0 + ((files.map fun f => 44 + f.2.length).sum) ≤
      ((List.range (issueListSize s imp files)).map junk).length := by
    simp only [List.length_map, List.length_range, issueListSize]
    rw [sum_record_sizes]
    omega
  obtain ⟨b2, hscan, hlen, htake⟩ := mok_scan_spec files s imp _ 0 hnd hcap
  have hrs : eligSize s imp files ≠ 0 := by
    obtain ⟨f, hfm, hft⟩ := hex
    have hmem : (44 + f.2.length) ∈ ((files.filter fun g =>
        is_valid_request s g.2 imp == some true).map
        fun g => 44 + g.2.length) := by
      refine List.mem_map_of_mem _ ?_
      rw [List.mem_filter]
      exact ⟨hfm, by simp [hft]⟩
    have hle := List.single_le_sum (fun x _ => Nat.zero_le x) _ hmem
    rw [eligSize]
    omega
  simp only [List.take_zero, List.nil_append] at htake
  refine ⟨storeWrite
      (storeWrite s ((if imp then "MokNew" else "MokDel"), shimLockGuid)
        (some (encodeList (eligBlobs s imp files))))
      ((if imp then "MokAuth" else "MokDelAuth"), shimLockGuid)
      (some (generate_auth sha256
        (some (encodeList (eligBlobs s imp files))) pw)), ?_, ?_, ?_, ?_⟩
  · simp only [issue_mok_request, read_variable, hold, hscan]
    rw [if_neg (by omega)]
    rw [htake]
    simp only [update_request, hpw, edit_variable, hfwr, Bool.false_eq_true,
      if_false, storeWrite_failWrite, hfwa]
  · simp [hneq]
  · simp
  · intro k hk1 hk2
    simp [hk1, hk2]

/-- Store for the C7 witness: key `[3]` (A.der's contents) is already in
the signature database; no pending request exists; all writes succeed. -/
def commitStoreExample : VarStore :=
  { vars := fun k => if k = ("db", efiImageSecurityDatabaseGuid) then
      some (encodeRecord [3]) else none,
    failWrite := fun _ => false,
    failDelete := fun _ => false }

/-- Claim C7 witness: importing A.der (already in db) and B.der (fresh)
commits exactly B's record as MokNew, skips A by name, and tags the
B-only bytes with the chosen password. -/
theorem issue_mok_request_commit_witness :
    ∃ s2,
      issue_mok_request (fun _ => List.replicate 32 1) (fun _ => 0)
          commitStoreExample (fun _ => List.replicate 8 97) 0
          [("A.der", [3]), ("B.der", [4])] true =
        some (0, s2, 2, ["A.der"]) ∧
      s2.vars ("MokNew", shimLockGuid) = some (encodeRecord [4]) ∧
      s2.vars ("MokAuth", shimLockGuid) =
        some (generate_auth (fun _ => List.replicate 32 1)
          (some (encodeRecord [4])) (List.replicate 8 97)) := by
  obtain ⟨s2, h1, h2, h3, -⟩ := issue_mok_request_commit
    (fun _ => List.replicate 32 1) (fun _ => 0) commitStoreExample
    (fun _ => List.replicate 8 97) 0 [("A.der", [3]), ("B.der", [4])] true
    (List.replicate 8 97) 2 (by decide) (by decide) (by decide) (by decide)
    (by decide) (by decide)
  have he : encodeList (eligBlobs commitStoreExample true
      [("A.der", [3]), ("B.der", [4])]) = encodeRecord [4] := by decide
  have hs : skipNames commitStoreExample true
      [("A.der", [3]), ("B.der", [4])] = ["A.der"] := by decide
  rw [he] at h2 h3
  rw [hs] at h1
  exact ⟨s2, h1, h2, h3⟩
